import Mathlib

/-!
Verification of the llm-council three-stage orchestration pipeline
(`src/council.ts`, `src/prompts.ts`, `src/types.ts`).

The TypeScript source is shallowly embedded: strings are Lean `String`
(scanned as `List Char`), the JS regex scans of `parseRanking` are
embedded as deterministic left-to-right scanners (the concrete patterns
involved never need backtracking: each greedy class `\d+`/`\s*` is
followed by a literal that the class cannot match), `Promise.allSettled`
fan-outs become per-model `Except` results re-assembled in configured
order, and the provider is an oracle `chat : String → List ChatMessage →
Except String String`.  JS numbers are embedded as exact rationals:
`Math.round` is round-half-up (`⌊x + 1/2⌋`), which is `Math.round`'s
behavior on the non-negative values that arise here.
-/

attribute [local semireducible] Rat.mul Rat.add Rat.inv

namespace LLMCouncil

/-! ## Character classes of the JS regexes (ASCII fragment)

`\d` is `[0-9]`; `[A-Z]` is the uppercase range; `\s` is embedded as the
ASCII whitespace characters (space, tab, LF, CR, VT, FF); `\w` (for the
`\b` word-boundary assertion) is `[A-Za-z0-9_]`. -/

def isDigitC (c : Char) : Bool := c.isDigit

def isUpperC (c : Char) : Bool := 'A' ≤ c && c ≤ 'Z'

def isSpaceC (c : Char) : Bool :=
  c == ' ' || c == '\t' || c == '\n' || c == '\r' || c == '\x0b' || c == '\x0c'

def isWordC (c : Char) : Bool := c.isAlpha || c.isDigit || c == '_'

/-- Number of leading characters satisfying `p` (greedy class match). -/
def countWhile (p : Char → Bool) : List Char → Nat
  | [] => 0
  | c :: rest => if p c then countWhile p rest + 1 else 0

/-- The literal `'Response '` that precedes a label letter. -/
def respLit : List Char := "Response ".data

/-- Label string built from a letter: the `Response X` form shared by all
returns of `parseRanking` (for strategy 1/2 this is the matched text with
the ordinal stripped; for the other strategies the code writes the
template `` `Response ${letter}` ``). -/
def mkLabel (c : Char) : String := "Response " ++ c.toString

/-! ## Strategy 1 / unheadered strategy 2: `/\d+\.\s*Response [A-Z]/g` -/

/-- Match `\d+\.\s*Response [A-Z]` at the head of `cs`; returns the label
letter and the total number of characters consumed by the match. -/
def matchNumberedAt (cs : List Char) : Option (Char × Nat) :=
  let d := countWhile isDigitC cs
  if d = 0 then none else
    match cs.drop d with
    | '.' :: rest1 =>
      let s := countWhile isSpaceC rest1
      let rest2 := rest1.drop s
      if respLit.isPrefixOf rest2 then
        match rest2.drop respLit.length with
        | c :: _ => if isUpperC c then some (c, d + 1 + s + respLit.length + 1) else none
        | [] => none
      else none
    | _ => none

/-- Fuelled scan for the non-overlapping matches of
`/\d+\.\s*Response [A-Z]/g`, scanning left to right (JS `String.match`
with the global flag).  Every match consumes at least one character, so
fuel equal to the length of the scanned list never runs out; fuel only
makes the recursion structural. -/
def scanNumberedF : Nat → List Char → List Char
  | 0, _ => []
  | _ + 1, [] => []
  | fuel + 1, c :: rest =>
    match matchNumberedAt (c :: rest) with
    | some (l, k) => l :: scanNumberedF fuel (rest.drop (k - 1))
    | none => scanNumberedF fuel rest

/-- All letters of the matches of `/\d+\.\s*Response [A-Z]/g`. -/
def scanNumbered (cs : List Char) : List Char := scanNumberedF cs.length cs

/-! ## Strategy 1b: `/\d+\.\s*[A-Z](?:\s|$|,|\.)/g` (bare letters) -/

/-- Match `\d+\.\s*[A-Z](?:\s|$|,|\.)` at the head of `cs`.  The final
group tries `\s` first, then the zero-width `$`, then `,`, then `.`;
the returned letter is what survives the source's
`replace(/^\d+\.\s*/,'').trim().replace(/[,.]$/,'')` post-processing
(always exactly the letter). -/
def matchBareAt (cs : List Char) : Option (Char × Nat) :=
  let d := countWhile isDigitC cs
  if d = 0 then none else
    match cs.drop d with
    | '.' :: rest1 =>
      let s := countWhile isSpaceC rest1
      match rest1.drop s with
      | c :: rest3 =>
        if isUpperC c then
          match rest3 with
          | [] => some (c, d + 1 + s + 1)
          | c2 :: _ =>
            if isSpaceC c2 || c2 == ',' || c2 == '.' then some (c, d + 1 + s + 1 + 1)
            else none
        else none
      | [] => none
    | _ => none

/-- Fuelled scan for the bare-letter pattern (see `scanNumberedF` for
the fuel convention). -/
def scanBareF : Nat → List Char → List Char
  | 0, _ => []
  | _ + 1, [] => []
  | fuel + 1, c :: rest =>
    match matchBareAt (c :: rest) with
    | some (l, k) => l :: scanBareF fuel (rest.drop (k - 1))
    | none => scanBareF fuel rest

/-- Letters of all non-overlapping matches of the bare-letter pattern. -/
def scanBare (cs : List Char) : List Char := scanBareF cs.length cs

/-! ## Strategy 3: `/Response [A-Z]/g` mentions -/

/-- Match `Response [A-Z]` at the head of `cs`. -/
def matchMentionAt (cs : List Char) : Option (Char × Nat) :=
  if respLit.isPrefixOf cs then
    match cs.drop respLit.length with
    | c :: _ => if isUpperC c then some (c, respLit.length + 1) else none
    | [] => none
  else none

/-- Fuelled scan for `Response [A-Z]` mentions (see `scanNumberedF` for
the fuel convention). -/
def scanMentionsF : Nat → List Char → List Char
  | 0, _ => []
  | _ + 1, [] => []
  | fuel + 1, c :: rest =>
    match matchMentionAt (c :: rest) with
    | some (l, k) => l :: scanMentionsF fuel (rest.drop (k - 1))
    | none => scanMentionsF fuel rest

/-- Letters of all non-overlapping `Response [A-Z]` matches. -/
def scanMentions (cs : List Char) : List Char := scanMentionsF cs.length cs

/-- `[...new Set(xs)]`: first occurrences in order, later duplicates
removed (JS `Set` preserves insertion order). -/
def dedupFirst (seen : List Char) : List Char → List Char
  | [] => []
  | c :: rest =>
    if seen.contains c then dedupFirst seen rest
    else c :: dedupFirst (c :: seen) rest

/-! ## Strategy 4: `/\b([A-Z])\s*>\s*([A-Z])(?:\s*>\s*([A-Z]))*/g`

The source takes the first match, splits it on `>`, trims each piece and
keeps the order; every trimmed piece of a match is by construction a
single uppercase letter, so the source's `every(/^[A-Z]$/)` guard always
passes and the result is the letters of the first match. -/

/-- Greedily consume repetitions of `\s*>\s*[A-Z]`, returning the letters
and the number of characters consumed.  `fuel` only bounds recursion; each
repetition consumes at least two characters, so `fuel = cs.length` never
runs out. -/
def chainUnits (fuel : Nat) (cs : List Char) : List Char × Nat :=
  match fuel with
  | 0 => ([], 0)
  | fuel + 1 =>
    let s1 := countWhile isSpaceC cs
    match cs.drop s1 with
    | '>' :: r1 =>
      let s2 := countWhile isSpaceC r1
      match r1.drop s2 with
      | c :: r2 =>
        if isUpperC c then
          let (ls, n) := chainUnits fuel r2
          (c :: ls, s1 + 1 + s2 + 1 + n)
        else ([], 0)
      | [] => ([], 0)
    | _ => ([], 0)

/-- Match the chain pattern at the head of `cs` (the head must be the
leading `[A-Z]`); requires at least one `>`-unit. -/
def chainAt : List Char → Option (List Char)
  | [] => none
  | c :: rest =>
    if isUpperC c then
      match chainUnits rest.length rest with
      | ([], _) => none
      | (ls, _) => some (c :: ls)
    else none

/-- Scan for the first chain match, tracking whether the previous
character is a word character (the `\b` assertion holds exactly when it
is not, since `[A-Z]` is a word character). -/
def chainScanAux (prevIsWord : Bool) : List Char → Option (List Char)
  | [] => none
  | c :: rest =>
    match (if !prevIsWord then chainAt (c :: rest) else none) with
    | some ls => some ls
    | none => chainScanAux (isWordC c) rest

def chainScan (cs : List Char) : Option (List Char) := chainScanAux false cs

/-! ## The `FINAL RANKING:` marker (`String.indexOf`) -/

def markerStr : String := "FINAL RANKING:"

def markerData : List Char := markerStr.data

/-- `text.indexOf('FINAL RANKING:')` followed by `text.slice(idx)`:
returns the suffix of `cs` starting at the first occurrence of the
marker, or `none` when the marker does not occur. -/
def splitAtMarker : List Char → Option (List Char)
  | [] => none
  | c :: rest =>
    if markerData.isPrefixOf (c :: rest) then some (c :: rest)
    else splitAtMarker rest

/-! ## `parseRanking` -/

/-- Strategies 2–4 of `parseRanking`, which the source runs on the whole
text whenever the headered strategies returned nothing (both when no
marker was found and when the marker was found but neither post-marker
pattern matched — control simply falls out of the `if` block). -/
def parseFallback (cs : List Char) : List String :=
  let numbered := scanNumbered cs
  if numbered ≠ [] then numbered.map mkLabel
  else
    let mentions := scanMentions cs
    if mentions ≠ [] then (dedupFirst [] mentions).map mkLabel
    else
      match chainScan cs with
      | some ls => ls.map mkLabel
      | none => []

/-- `parseRanking` from `src/council.ts`. -/
def parseRanking (text : String) : List String :=
  match splitAtMarker text.data with
  | some sec =>
    let ms := scanNumbered sec
    if ms ≠ [] then ms.map mkLabel
    else
      let bs := scanBare sec
      if bs ≠ [] then bs.map mkLabel
      else parseFallback text.data
  | none => parseFallback text.data

/-! ## Data model (`src/types.ts`) -/

structure ChatMessage where
  role : String
  content : String
deriving DecidableEq

structure Stage1Entry where
  model : String
  response : String
deriving DecidableEq

structure Stage2Ranking where
  model : String
  evaluation : String
  parsed_ranking : List String
deriving DecidableEq

structure AggregateRanking where
  model : String
  average_rank : ℚ
  rankings_count : Nat
deriving DecidableEq

/-- JS objects with string keys are embedded as association lists in key
insertion order; lookup is `List.lookup` (keys are never shadowed by the
source). -/
structure Stage2Result where
  rankings : List Stage2Ranking
  label_to_model : List (String × String)
  aggregate_rankings : List AggregateRanking
deriving DecidableEq

structure Stage3Result where
  model : String
  response : String
deriving DecidableEq

structure CouncilResult where
  query : String
  stage1 : Option (List Stage1Entry)
  stage2 : Option Stage2Result
  stage3 : Option Stage3Result
  error : Option String
deriving DecidableEq

/-- The provider capability `chat(model, messages) -> text`: a rejected
promise is an `Except.error` carrying the error message. -/
def Chat : Type := String → List ChatMessage → Except String String

/-! ## `calculateAggregateRankings` -/

/-- `Math.round` of a non-negative JS number: round half up. -/
def mathRound (q : ℚ) : ℤ := (q + 1/2).floor

/-- `Math.round((sum / length) * 100) / 100` for a rank list. -/
def avgOf (ranks : List Nat) : ℚ :=
  (mathRound (((ranks.sum : ℚ) / ranks.length) * 100) : ℚ) / 100

/-- `modelRanks[model].push(rank)` with first-insertion key order: append
the rank to the model's entry, creating the entry at the end on first
encounter. -/
def pushRank : List (String × List Nat) → String → Nat → List (String × List Nat)
  | [], m, r => [(m, [r])]
  | (m', rs) :: rest, m, r =>
    if m' = m then (m', rs ++ [r]) :: rest else (m', rs) :: pushRank rest m r

/-- The accumulation loop of `calculateAggregateRankings`: for each
evaluation, the label at 0-indexed position `i` contributes rank `i + 1`
to the model it resolves to; unresolved labels are discarded.  The source
guard `if (model)` also discards an empty-string model name (JS
truthiness). -/
def collectRanks (rankings : List Stage2Ranking) (labelToModel : List (String × String)) :
    List (String × List Nat) :=
  rankings.foldl
    (fun acc ranking =>
      ranking.parsed_ranking.enum.foldl
        (fun acc2 p =>
          match labelToModel.lookup p.2 with
          | some model => if model = "" then acc2 else pushRank acc2 model (p.1 + 1)
          | none => acc2)
        acc)
    []

/-- The unsorted `aggregates` array (one entry per key of `modelRanks`,
in insertion order). -/
def aggregateEntries (rankings : List Stage2Ranking) (labelToModel : List (String × String)) :
    List AggregateRanking :=
  (collectRanks rankings labelToModel).map
    (fun p => { model := p.1, average_rank := avgOf p.2, rankings_count := p.2.length })

/-- The comparator `(a, b) => a.average_rank - b.average_rank`. -/
def leAvg (a b : AggregateRanking) : Prop := a.average_rank ≤ b.average_rank

instance : DecidableRel leAvg :=
  fun a b => inferInstanceAs (Decidable (a.average_rank ≤ b.average_rank))

instance : IsTotal AggregateRanking leAvg := ⟨fun a b => le_total a.average_rank b.average_rank⟩

instance : IsTrans AggregateRanking leAvg := ⟨fun _ _ _ => le_trans⟩

/-- `calculateAggregateRankings` from `src/council.ts`.  JS
`Array.prototype.sort` is a stable sort; its unique stable ascending
result is computed here by `List.insertionSort`, which is stable. -/
def calculateAggregateRankings (rankings : List Stage2Ranking)
    (labelToModel : List (String × String)) : List AggregateRanking :=
  List.insertionSort leAvg (aggregateEntries rankings labelToModel)

/-! ## Stage 2 anonymization -/

/-- `` `Response ${String.fromCharCode(65 + i)}` ``. -/
def labelFor (i : Nat) : String := "Response " ++ (Char.ofNat (65 + i)).toString

/-- The `(label, text)` pairs of the anonymized responses, labelling the
entry at position `i` (counting from `i0`) with `labelFor i`. -/
def anonPairsFrom (i0 : Nat) : List Stage1Entry → List (String × String)
  | [] => []
  | e :: es => (labelFor i0, e.response) :: anonPairsFrom (i0 + 1) es

def anonPairs (s1 : List Stage1Entry) : List (String × String) := anonPairsFrom 0 s1

/-- The `labelToModel` record, in label insertion order. -/
def labelToModelFrom (i0 : Nat) : List Stage1Entry → List (String × String)
  | [] => []
  | e :: es => (labelFor i0, e.model) :: labelToModelFrom (i0 + 1) es

def anonLabelToModel (s1 : List Stage1Entry) : List (String × String) :=
  labelToModelFrom 0 s1

/-! ## Prompts (`src/prompts.ts`) -/

def rankingPromptHeader (query : String) : String :=
  "You are evaluating different responses to the following question:\n\nQuestion: "
    ++ query ++ "\n\nHere are the responses from different models (anonymized):\n\n"

def rankingPromptFooter : String :=
  "\n\nYour task:\n1. First, evaluate each response individually. For each response, explain what it does well and what it does poorly.\n2. Then, at the very end of your response, provide a final ranking.\n\nIMPORTANT: Your final ranking MUST be formatted EXACTLY as follows:\n- Start with the line \"FINAL RANKING:\" (all caps, with colon)\n- Then list the responses from best to worst as a numbered list\n- Each line should be: number, period, space, then ONLY the response label (e.g., \"1. Response A\")\n- Do not add any other text or explanations in the ranking section\n\nExample of the correct format:\n\nFINAL RANKING:\n1. Response C\n2. Response A\n3. Response B\n\nNow provide your evaluation and ranking:"

/-- `responses.map(r => label + ':\n' + text).join('\n\n')`. -/
def joinBlocks (blocks : List String) : String :=
  String.intercalate "\n\n" blocks

/-- `buildRankingPrompt` from `src/prompts.ts`. -/
def buildRankingPrompt (query : String) (responses : List (String × String)) : String :=
  rankingPromptHeader query
    ++ joinBlocks (responses.map (fun r => r.1 ++ ":\n" ++ r.2))
    ++ rankingPromptFooter

def chairmanPromptHeader (query : String) : String :=
  "You are the Chairman of an LLM Council. Multiple AI models have provided responses to a user's question, and then ranked each other's responses.\n\nOriginal Question: "
    ++ query ++ "\n\nSTAGE 1 - Individual Responses:\n"

def chairmanPromptMid : String := "\n\nSTAGE 2 - Peer Rankings:\n"

def chairmanPromptFooter : String :=
  "\n\nYour task is to synthesize all of this information into a single, comprehensive, accurate answer to the original question. Consider:\n- The individual responses and their insights\n- The peer rankings and what they reveal about response quality\n- Any patterns of agreement or disagreement\n\nIMPORTANT: Respond with the answer DIRECTLY. Do NOT include any preamble, introduction, or meta-commentary about being a chairman, synthesizing responses, or the council process. Just provide the final answer as if you were answering the question yourself."

/-- `buildChairmanPrompt` from `src/prompts.ts`. -/
def buildChairmanPrompt (query : String) (stage1 : List Stage1Entry)
    (stage2 : List Stage2Ranking) : String :=
  chairmanPromptHeader query
    ++ joinBlocks (stage1.map (fun r => "Model: " ++ r.model ++ "\nResponse: " ++ r.response))
    ++ chairmanPromptMid
    ++ joinBlocks (stage2.map (fun r => "Model: " ++ r.model ++ "\nRanking: " ++ r.evaluation))
    ++ chairmanPromptFooter

/-! ## The three stages and `run` (`LLMCouncil` in `src/council.ts`)

`Promise.allSettled` issues the calls together and waits for all of them;
the results are then re-assembled in configured-model order (not
completion order), successes kept and failures discarded — which is the
order-preserving `filterMap` over the per-model `Except` results. -/

/-- The message list of a Stage 1 request. -/
def queryMsg (query : String) : List ChatMessage := [{ role := "user", content := query }]

/-- The successful Stage 1 entries, in configured-model order. -/
def stage1Entries (chat : Chat) (models : List String) (query : String) : List Stage1Entry :=
  models.filterMap
    (fun model => (chat model (queryMsg query)).toOption.map
      (fun response => { model := model, response := response }))

def stage1ErrorMsg : String := "All models failed to respond in Stage 1"

/-- `stage1`: throws iff zero models succeeded. -/
def stage1 (chat : Chat) (models : List String) (query : String) :
    Except String (List Stage1Entry) :=
  let entries := stage1Entries chat models query
  if entries = [] then .error stage1ErrorMsg else .ok entries

/-- The message list of a Stage 2 ranking request (the same prompt is
sent to every configured model). -/
def rankingMsg (query : String) (s1 : List Stage1Entry) : List ChatMessage :=
  [{ role := "user", content := buildRankingPrompt query (anonPairs s1) }]

/-- The successful Stage 2 evaluator entries, in configured-model order;
each records the raw evaluation and its parse, the parse being kept even
when empty. -/
def stage2Rankings (chat : Chat) (models : List String) (query : String)
    (s1 : List Stage1Entry) : List Stage2Ranking :=
  models.filterMap
    (fun model => (chat model (rankingMsg query s1)).toOption.map
      (fun evaluation =>
        { model := model, evaluation := evaluation, parsed_ranking := parseRanking evaluation }))

/-- `stage2`: total — evaluator failures are absorbed by the settle-all
join and the rest of the stage is pure, so the stage never throws. -/
def stage2 (chat : Chat) (models : List String) (query : String)
    (s1 : List Stage1Entry) : Stage2Result :=
  let rankings := stage2Rankings chat models query s1
  { rankings := rankings
    label_to_model := anonLabelToModel s1
    aggregate_rankings := calculateAggregateRankings rankings (anonLabelToModel s1) }

/-- `stage3`: a single chairman call; fails iff that call fails. -/
def stage3 (chat : Chat) (chairman query : String) (s1 : List Stage1Entry)
    (rankings : List Stage2Ranking) : Except String Stage3Result :=
  (chat chairman [{ role := "user", content := buildChairmanPrompt query s1 rankings }]).map
    (fun response => { model := chairman, response := response })

/-- `LLMCouncil.run`: sequence the stages, stopping at the first failure
with an error string naming the failed stage, keeping every earlier
stage's result and leaving the failing and later stages `none`.  (The
source also wraps Stage 2 in `try/catch`, but Stage 2 cannot throw.) -/
def runCouncil (chat : Chat) (models : List String) (chairman query : String) : CouncilResult :=
  match stage1 chat models query with
  | .error e =>
    { query := query, stage1 := none, stage2 := none, stage3 := none,
      error := some ("Stage 1 failed: " ++ e) }
  | .ok s1 =>
    let s2 := stage2 chat models query s1
    match stage3 chat chairman query s1 s2.rankings with
    | .error e =>
      { query := query, stage1 := some s1, stage2 := some s2, stage3 := none,
        error := some ("Stage 3 failed: " ++ e) }
    | .ok s3 =>
      { query := query, stage1 := some s1, stage2 := some s2, stage3 := some s3,
        error := none }

/-! ## Theorems -/

/-- C1: every run of `LLMCouncil.run` ends in one of three shapes: Stage 1
failed (no stage populated, error `Stage 1 failed: <message>`), Stage 3
failed (Stage 1 and Stage 2 populated, Stage 3 `none`, error
`Stage 3 failed: <message>`), or full success (all three stages populated,
no error).  Stage 2 is total in the source — each evaluator failure is
absorbed by the settle-all join and the remainder of the stage is pure —
so the `Stage 2 failed` catch branch is unreachable and the "stage fails"
hypothesis of the claim can only be realised by Stages 1 and 3; in each
failure case every earlier completed stage remains populated, every later
stage is `none`, and the error names the failing stage and carries the
underlying message. -/
theorem run_stage_failure_invariant (chat : Chat) (models : List String)
    (chairman query : String) :
    (∃ e, stage1 chat models query = .error e ∧
        runCouncil chat models chairman query =
          ⟨query, none, none, none, some ("Stage 1 failed: " ++ e)⟩)
    ∨ (∃ s1 e, stage1 chat models query = .ok s1 ∧
        stage3 chat chairman query s1 (stage2 chat models query s1).rankings = .error e ∧
        runCouncil chat models chairman query =
          ⟨query, some s1, some (stage2 chat models query s1), none,
            some ("Stage 3 failed: " ++ e)⟩)
    ∨ (∃ s1 s3, stage1 chat models query = .ok s1 ∧
        stage3 chat chairman query s1 (stage2 chat models query s1).rankings = .ok s3 ∧
        runCouncil chat models chairman query =
          ⟨query, some s1, some (stage2 chat models query s1), some s3, none⟩) := by
  cases h1 : stage1 chat models query with
  | error e => exact Or.inl ⟨e, rfl, by simp [runCouncil, h1]⟩
  | ok s1 =>
    cases h3 : stage3 chat chairman query s1 (stage2 chat models query s1).rankings with
    | error e => exact Or.inr (Or.inl ⟨s1, e, rfl, h3, by simp [runCouncil, h1, h3]⟩)
    | ok s3 => exact Or.inr (Or.inr ⟨s1, s3, rfl, h3, by simp [runCouncil, h1, h3]⟩)

/-- The entry list of Stage 1 is empty exactly when every configured
model's chat call failed. -/
theorem stage1Entries_eq_nil_iff (chat : Chat) (models : List String) (query : String) :
    stage1Entries chat models query = [] ↔
      ∀ m ∈ models, (chat m (queryMsg query)).isOk = false := by
  rw [stage1Entries, List.filterMap_eq_nil_iff]
  refine forall_congr' fun m => imp_congr_right fun _ => ?_
  cases chat m (queryMsg query) <;> simp [Except.isOk, Except.toBool, Except.toOption]

/-- C4: Stage 1 raises its stage-level error iff zero configured models'
chat calls succeed; when at least one succeeds it returns the successful
`(model, response)` entries in configured order (`stage1Entries`, the
order-preserving collapse of the settle-all results) with failures
discarded; and in the all-fail case the whole run result carries an error
containing both `Stage 1 failed` and `All models failed`, with `stage1`,
`stage2` and `stage3` all `null`. -/
theorem stage1_fails_iff_all_fail (chat : Chat) (models : List String)
    (chairman query : String) :
    ((stage1 chat models query).isOk = false ↔
        ∀ m ∈ models, (chat m (queryMsg query)).isOk = false)
    ∧ ((∃ m ∈ models, (chat m (queryMsg query)).isOk = true) →
        stage1 chat models query = .ok (stage1Entries chat models query))
    ∧ ((∀ m ∈ models, (chat m (queryMsg query)).isOk = false) →
        ∃ err, runCouncil chat models chairman query =
            ⟨query, none, none, none, some err⟩
          ∧ "Stage 1 failed".data <:+: err.data
          ∧ "All models failed".data <:+: err.data) := by
  refine ⟨?_, ?_, ?_⟩
  · rw [← stage1Entries_eq_nil_iff chat models query, stage1]
    by_cases h : stage1Entries chat models query = [] <;> simp [h, Except.isOk, Except.toBool]
  · rintro ⟨m, hm, hok⟩
    have hne : stage1Entries chat models query ≠ [] := by
      intro hnil
      have := (stage1Entries_eq_nil_iff chat models query).mp hnil m hm
      rw [hok] at this
      simp at this
    simp [stage1, hne]
  · intro hall
    have hnil : stage1Entries chat models query = [] :=
      (stage1Entries_eq_nil_iff chat models query).mpr hall
    refine ⟨"Stage 1 failed: " ++ stage1ErrorMsg, ?_, ?_, ?_⟩
    · simp [runCouncil, stage1, hnil]
    · exact ⟨[], ": All models failed to respond in Stage 1".data, rfl⟩
    · exact ⟨"Stage 1 failed: ".data, " to respond in Stage 1".data, rfl⟩

/-- Witness for C4: a single configured model whose provider call is
rejected with `connection refused`. -/
theorem stage1_fails_iff_all_fail_witness :
    ∃ err, runCouncil (fun _ _ => .error "connection refused") ["model-a"] "model-a" "hello" =
        ⟨"hello", none, none, none, some err⟩
      ∧ "Stage 1 failed".data <:+: err.data
      ∧ "All models failed".data <:+: err.data :=
  (stage1_fails_iff_all_fail (fun _ _ => .error "connection refused")
    ["model-a"] "model-a" "hello").2.2 (by intro m _; rfl)

/-- C5: Stage 2 issues its ranking request to every originally configured
model — the statement places no hypothesis relating `m` to `s1`, so it
covers models that produced no Stage 1 entry — and records every
successful evaluator reply with its parse, even an empty parse; the stage
is a total function (it cannot abort), its aggregate is computed over
exactly the collected evaluations, and when every evaluator call fails it
still completes with an empty rankings list and an empty aggregate. -/
theorem stage2_asks_all_configured_models (chat : Chat) (models : List String)
    (query : String) (s1 : List Stage1Entry) :
    (∀ m ∈ models, ∀ ev, chat m (rankingMsg query s1) = .ok ev →
        (⟨m, ev, parseRanking ev⟩ : Stage2Ranking) ∈ (stage2 chat models query s1).rankings)
    ∧ (stage2 chat models query s1).rankings = stage2Rankings chat models query s1
    ∧ (stage2 chat models query s1).aggregate_rankings =
        calculateAggregateRankings (stage2 chat models query s1).rankings (anonLabelToModel s1)
    ∧ ((∀ m ∈ models, (chat m (rankingMsg query s1)).isOk = false) →
        (stage2 chat models query s1).rankings = []
          ∧ (stage2 chat models query s1).aggregate_rankings = []) := by
  refine ⟨?_, rfl, rfl, ?_⟩
  · intro m hm ev hev
    show _ ∈ stage2Rankings chat models query s1
    rw [stage2Rankings, List.mem_filterMap]
    exact ⟨m, hm, by rw [hev]; rfl⟩
  · intro hall
    have hnil : stage2Rankings chat models query s1 = [] := by
      rw [stage2Rankings, List.filterMap_eq_nil_iff]
      intro m hm
      have := hall m hm
      cases h : chat m (rankingMsg query s1) <;> simp_all [Except.isOk, Except.toBool, Except.toOption]
    refine ⟨hnil, ?_⟩
    show calculateAggregateRankings (stage2Rankings chat models query s1) _ = []
    rw [hnil]
    rfl

/-- Witness for C5: model `ma` is configured but absent from the Stage 1
survivors `s1 = [(mb, rb)]`; its successful evaluator reply `Ema` does not
parse (`parseRanking "Ema" = []`) and is still recorded. -/
theorem stage2_asks_all_configured_models_witness :
    (⟨"ma", "Ema", parseRanking "Ema"⟩ : Stage2Ranking) ∈
      (stage2 (fun m _ => .ok ("E" ++ m)) ["ma", "mb"] "q" [⟨"mb", "rb"⟩]).rankings :=
  (stage2_asks_all_configured_models (fun m _ => .ok ("E" ++ m)) ["ma", "mb"] "q"
    [⟨"mb", "rb"⟩]).1 "ma" (by simp) "Ema" rfl

theorem labelFor_inj_lt26 : ∀ i < 26, ∀ j < 26, labelFor i = labelFor j → i = j := by decide

theorem anonPairsFrom_map_fst (l : List Stage1Entry) : ∀ j : Nat,
    (anonPairsFrom j l).map Prod.fst = (List.range' j l.length).map labelFor := by
  induction l with
  | nil => intro j; rfl
  | cons e es ih => intro j; simpa [anonPairsFrom, List.range'] using ih (j + 1)

theorem labelToModelFrom_map_fst (l : List Stage1Entry) : ∀ j : Nat,
    (labelToModelFrom j l).map Prod.fst = (List.range' j l.length).map labelFor := by
  induction l with
  | nil => intro j; rfl
  | cons e es ih => intro j; simpa [labelToModelFrom, List.range'] using ih (j + 1)

theorem labelToModelFrom_map_snd (l : List Stage1Entry) : ∀ j : Nat,
    (labelToModelFrom j l).map Prod.snd = l.map Stage1Entry.model := by
  induction l with
  | nil => intro j; rfl
  | cons e es ih => intro j; simpa [labelToModelFrom] using ih (j + 1)

theorem nodup_map_labelFor_range' : ∀ (n j : Nat), j + n ≤ 26 →
    (((List.range' j n).map labelFor).Nodup) := by
  intro n
  induction n with
  | zero => intro j _; simp
  | succ m ih =>
    intro j hj
    rw [List.range'_succ, List.map_cons]
    refine List.Nodup.cons ?_ (ih (j + 1) (by omega))
    intro hmem
    rw [List.mem_map] at hmem
    obtain ⟨i, hi, hlab⟩ := hmem
    rw [List.mem_range'_1] at hi
    have := labelFor_inj_lt26 i (by omega) j (by omega) hlab
    omega

/-- C9: anonymization is strictly positional — the Stage 1 entry at
0-indexed position `i` receives the label `labelFor i`, i.e.
`Response {String.fromCharCode(65 + i)}`, both in the anonymized prompt
pairs and in the label-to-model mapping; for at most 26 entries the
labels are pairwise distinct; the mapping has exactly one entry per
Stage 1 entry (same length, models in Stage 1 order).  Determinism —
running the anonymization twice on the same ordered input yields the
same labels and mapping — is immediate: the embedding is a pure function
of the ordered entry list, as is the source loop, whose only inputs are
the entry list and the loop index. -/
theorem anonymization_by_position (s1 : List Stage1Entry) (h : s1.length ≤ 26) :
    (anonPairs s1).map Prod.fst = (List.range s1.length).map labelFor
    ∧ (anonLabelToModel s1).map Prod.fst = (List.range s1.length).map labelFor
    ∧ (anonLabelToModel s1).map Prod.snd = s1.map Stage1Entry.model
    ∧ (anonLabelToModel s1).length = s1.length
    ∧ ((anonPairs s1).map Prod.fst).Nodup := by
  have hr : List.range s1.length = List.range' 0 s1.length := List.range_eq_range' _
  refine ⟨?_, ?_, labelToModelFrom_map_snd s1 0, ?_, ?_⟩
  · rw [hr]; exact anonPairsFrom_map_fst s1 0
  · rw [hr]; exact labelToModelFrom_map_fst s1 0
  · have := congrArg List.length (labelToModelFrom_map_snd s1 0)
    simpa using this
  · rw [show anonPairs s1 = anonPairsFrom 0 s1 from rfl, anonPairsFrom_map_fst s1 0]
    exact nodup_map_labelFor_range' s1.length 0 (by omega)

/-- Witness for C9: two Stage 1 entries receive `Response A` and
`Response B` in order, with a two-entry mapping carrying the models. -/
theorem anonymization_by_position_witness :
    (anonLabelToModel [⟨"ma", "ra"⟩, ⟨"mb", "rb"⟩]).map Prod.snd =
        [⟨"ma", "ra"⟩, ⟨"mb", "rb"⟩].map Stage1Entry.model
      ∧ ((anonPairs [⟨"ma", "ra"⟩, ⟨"mb", "rb"⟩]).map Prod.fst).Nodup :=
  ⟨(anonymization_by_position [⟨"ma", "ra"⟩, ⟨"mb", "rb"⟩] (by decide)).2.2.1,
    (anonymization_by_position [⟨"ma", "ra"⟩, ⟨"mb", "rb"⟩] (by decide)).2.2.2.2⟩

/-! ## Marker location lemmas (for C2) -/

theorem isPrefixOf_iff_take (l : List Char) : ∀ cs : List Char,
    l.isPrefixOf cs = true ↔ cs.take l.length = l := by
  induction l with
  | nil => intro cs; simp [List.isPrefixOf]
  | cons a l ih =>
    intro cs
    cases cs with
    | nil => simp [List.isPrefixOf]
    | cons b bs => simp [List.isPrefixOf, ih bs, eq_comm (a := b) (b := a), and_comm]

/-- `FINAL RANKING:` has no nonempty proper border: no nonempty proper
suffix of the text it scans can be extended into an occurrence that
overlaps a displayed occurrence. -/
theorem marker_borderFree : ∀ n < markerData.length, 1 ≤ n →
    markerData.drop n ≠ markerData.take (markerData.length - n) := by decide

/-- If the marker does not occur in `pre`, then the first occurrence of
the marker in `pre ++ markerData ++ rest` is the displayed one:
`indexOf` selects the section `markerData ++ rest`. -/
theorem splitAtMarker_append (pre rest : List Char) (h : splitAtMarker pre = none) :
    splitAtMarker (pre ++ (markerData ++ rest)) = some (markerData ++ rest) := by
  induction pre with
  | nil =>
    rw [List.nil_append]
    obtain ⟨c, tl, hM⟩ : ∃ c tl, markerData = c :: tl := ⟨'F', _, rfl⟩
    rw [hM, List.cons_append, splitAtMarker, ← List.cons_append, ← hM]
    have hpref : markerData.isPrefixOf (markerData ++ rest) = true := by
      rw [isPrefixOf_iff_take]
      simp
    rw [hpref]
    simp
  | cons c pre' ih =>
    rw [splitAtMarker] at h
    by_cases hc : markerData.isPrefixOf (c :: pre') = true
    · rw [if_pos hc] at h; exact absurd h (by simp)
    · rw [if_neg hc] at h
      rw [List.cons_append, splitAtMarker]
      have hnp : ¬ markerData.isPrefixOf (c :: (pre' ++ (markerData ++ rest))) = true := by
        intro habs
        rw [show c :: (pre' ++ (markerData ++ rest)) = (c :: pre') ++ (markerData ++ rest)
            from rfl] at habs
        rw [isPrefixOf_iff_take] at habs
        by_cases hlen : markerData.length ≤ (c :: pre').length
        · rw [List.take_append_of_le_length hlen] at habs
          exact hc ((isPrefixOf_iff_take markerData (c :: pre')).mpr habs)
        · push_neg at hlen
          set x : List Char := c :: pre' with hx
          have hxlen : 1 ≤ x.length := by simp [hx]
          rw [List.take_append_eq_append_take, List.take_of_length_le (le_of_lt hlen)] at habs
          have htake : (markerData ++ rest).take (markerData.length - x.length) =
              markerData.take (markerData.length - x.length) := by
            apply List.take_append_of_le_length
            omega
          rw [htake] at habs
          have hdrop : markerData.drop x.length =
              markerData.take (markerData.length - x.length) := by
            conv_lhs => rw [← habs]
            exact List.drop_left x _
          exact marker_borderFree x.length (by omega) hxlen hdrop
      rw [if_neg hnp]
      rw [← List.cons_append] at hnp
      exact ih h

theorem strData_append (a b : String) : (a ++ b).data = a.data ++ b.data := rfl

/-- C2: for any preceding prose `pre` that does not itself contain the
`FINAL RANKING:` marker, and any tail such that the post-marker section
`markerData ++ tail` contains at least one `\d+\.\s*Response [A-Z]`
match, `parseRanking` returns exactly those matched labels, in order of
appearance, with the leading ordinals stripped (`mkLabel` of the matched
letters). -/
theorem parseRanking_headered (pre tail : String)
    (hpre : splitAtMarker pre.data = none)
    (hne : scanNumbered (markerData ++ tail.data) ≠ []) :
    parseRanking (pre ++ markerStr ++ tail) =
      (scanNumbered (markerData ++ tail.data)).map mkLabel := by
  have hdata : (pre ++ markerStr ++ tail).data = pre.data ++ (markerData ++ tail.data) := by
    rw [strData_append, strData_append, List.append_assoc]; rfl
  rw [parseRanking, hdata, splitAtMarker_append pre.data tail.data hpre]
  simp only [hne, if_true, ne_eq, not_false_iff, if_pos]

/-- Witness for C2 (Scenario A of the specification): the canonical
headered ranking block parses to `[Response B, Response A, Response C]`. -/
theorem parseRanking_headered_witness :
    parseRanking "FINAL RANKING:\n1. Response B\n2. Response A\n3. Response C" =
      ["Response B", "Response A", "Response C"] := by
  rw [show ("FINAL RANKING:\n1. Response B\n2. Response A\n3. Response C" : String) =
      "" ++ markerStr ++ "\n1. Response B\n2. Response A\n3. Response C" from rfl,
    parseRanking_headered "" "\n1. Response B\n2. Response A\n3. Response C"
      (by rfl) (by decide)]
  decide

/-- Counterexample to C6: in
`Response B is discussed. 1. Response A\nFINAL RANKING:\nTBD` the marker
is present and neither post-marker strategy matches (the section
`FINAL RANKING:\nTBD` has no numbered or bare-letter item), yet
`parseRanking` does not proceed to the mention-order strategy (which
would give `[Response B, Response A]`): it runs the whole-text numbered
search and returns `[Response A]`. -/
theorem parseRanking_post_marker_cex :
    splitAtMarker ("Response B is discussed. 1. Response A\nFINAL RANKING:\nTBD").data =
        some ("FINAL RANKING:\nTBD").data
    ∧ scanNumbered ("FINAL RANKING:\nTBD").data = []
    ∧ scanBare ("FINAL RANKING:\nTBD").data = []
    ∧ parseRanking "Response B is discussed. 1. Response A\nFINAL RANKING:\nTBD" =
        ["Response A"]
    ∧ (dedupFirst [] (scanMentions
        ("Response B is discussed. 1. Response A\nFINAL RANKING:\nTBD").data)).map mkLabel =
        ["Response B", "Response A"]
    ∧ parseRanking "Response B is discussed. 1. Response A\nFINAL RANKING:\nTBD" ≠
        (dedupFirst [] (scanMentions
          ("Response B is discussed. 1. Response A\nFINAL RANKING:\nTBD").data)).map mkLabel := by
  decide

/-- C6 (amended): when the text contains the marker but neither
post-marker strategy matches, parsing falls through to the whole-text
strategies starting with the unheadered numbered search — `parseFallback`
runs the numbered search on the entire text first and reaches the
mention-order strategy only if that search also finds nothing.  (The
claim as stated — that parsing skips the whole-text numbered search and
goes directly to mention order — is refuted by
`parseRanking_post_marker_cex`.) -/
theorem parseRanking_marker_fallthrough (t : String) (sec : List Char)
    (hsec : splitAtMarker t.data = some sec)
    (h1 : scanNumbered sec = [])
    (h2 : scanBare sec = []) :
    parseRanking t = parseFallback t.data := by
  rw [parseRanking, hsec]
  simp [h1, h2]

/-- Witness for C6 (amended), at the counterexample text: the result is
the whole-text numbered search's `[Response A]`. -/
theorem parseRanking_marker_fallthrough_witness :
    parseRanking "Response B is discussed. 1. Response A\nFINAL RANKING:\nTBD" =
      parseFallback ("Response B is discussed. 1. Response A\nFINAL RANKING:\nTBD").data := by
  rw [parseRanking_marker_fallthrough _ ("FINAL RANKING:\nTBD").data (by decide) (by decide)
    (by decide)]

theorem dedupFirst_nodup : ∀ (l seen : List Char),
    (∀ c ∈ dedupFirst seen l, c ∉ seen) ∧ (dedupFirst seen l).Nodup := by
  intro l
  induction l with
  | nil => intro seen; simp [dedupFirst]
  | cons c rest ih =>
    intro seen
    by_cases hc : seen.contains c = true
    · rw [dedupFirst, if_pos hc]
      exact ih seen
    · rw [dedupFirst, if_neg hc]
      refine ⟨?_, ?_⟩
      · intro d hd hds
        rcases List.mem_cons.mp hd with rfl | hd'
        · exact hc (by simpa using hds)
        · exact (ih (c :: seen)).1 d hd' (List.mem_cons_of_mem c hds)
      · refine List.Nodup.cons ?_ (ih (c :: seen)).2
        intro hmem
        exact (ih (c :: seen)).1 c hmem (List.mem_cons_self c seen)

theorem mkLabel_injective : Function.Injective mkLabel := by
  intro a b h
  have hd := congrArg String.data h
  simp only [mkLabel, strData_append] at hd
  have : a.toString.data = b.toString.data := List.append_cancel_left hd
  simpa [Char.toString] using this

/-- Counterexample to C7: `1. Response A 2. Response A` has no marker and
contains `Response A` mentions, but `parseRanking` does not return the
deduplicated first-appearance mentions (`[Response A]`): the whole-text
numbered strategy fires first and returns the duplicated
`[Response A, Response A]`. -/
theorem parseRanking_mentions_cex :
    splitAtMarker ("1. Response A 2. Response A").data = none
    ∧ scanMentions ("1. Response A 2. Response A").data ≠ []
    ∧ parseRanking "1. Response A 2. Response A" = ["Response A", "Response A"]
    ∧ ¬ (parseRanking "1. Response A 2. Response A").Nodup := by
  decide

/-- C7 (amended): for texts with no marker *and no whole-text numbered
match* but containing `Response {letter}` mentions, `parseRanking`
returns the mention letters deduplicated in order of first appearance,
and the result has no duplicates.  (The claim as stated, without the
no-numbered-match restriction, is refuted by
`parseRanking_mentions_cex`.) -/
theorem parseRanking_mentions_dedup (t : String)
    (hm : splitAtMarker t.data = none)
    (hn : scanNumbered t.data = [])
    (hne : scanMentions t.data ≠ []) :
    parseRanking t = (dedupFirst [] (scanMentions t.data)).map mkLabel
    ∧ (parseRanking t).Nodup := by
  have heq : parseRanking t = (dedupFirst [] (scanMentions t.data)).map mkLabel := by
    rw [parseRanking, hm, parseFallback]
    simp [hn, hne]
  refine ⟨heq, ?_⟩
  rw [heq]
  exact ((dedupFirst_nodup (scanMentions t.data) []).2).map mkLabel_injective

/-- Witness for C7 (amended): a pure-mention text parses to the three
distinct labels in first-appearance order. -/
theorem parseRanking_mentions_dedup_witness :
    parseRanking "I think Response C was best, then Response A, then Response B." =
      (dedupFirst [] (scanMentions
        ("I think Response C was best, then Response A, then Response B.").data)).map mkLabel
    ∧ (parseRanking
        "I think Response C was best, then Response A, then Response B.").Nodup :=
  parseRanking_mentions_dedup "I think Response C was best, then Response A, then Response B."
    (by decide) (by decide) (by decide)

/-- C8: for a text on which the marker, numbered-list and mention
strategies all come up empty but whose first inequality-chain match has
letters `ls`, `parseRanking` returns `Response {letter}` for each letter
of that run, in order. -/
theorem parseRanking_chain (t : String) (ls : List Char)
    (hm : splitAtMarker t.data = none)
    (hn : scanNumbered t.data = [])
    (hme : scanMentions t.data = [])
    (hc : chainScan t.data = some ls) :
    parseRanking t = ls.map mkLabel := by
  rw [parseRanking, hm, parseFallback]
  simp [hn, hme, hc]

/-- Witness for C8 (Scenario B of the specification):
`Overall I think the ranking is B > A > C` parses to
`[Response B, Response A, Response C]`. -/
theorem parseRanking_chain_witness :
    parseRanking "Overall I think the ranking is B > A > C" =
      ["Response B", "Response A", "Response C"] := by
  rw [parseRanking_chain "Overall I think the ranking is B > A > C" ['B', 'A', 'C']
    (by decide) (by decide) (by decide) (by decide)]
  decide

/-- C10: the numbered-list strategies deduplicate nothing — with and
without the header, `1. Response A ... 2. Response A` parses to the label
twice — and `calculateAggregateRankings` then accumulates both ranks from
the single evaluation, so the model's `rankings_count` (2) exceeds the
number of evaluations (1). -/
theorem numbered_strategies_no_dedup :
    parseRanking "FINAL RANKING:\n1. Response A\n2. Response A" =
        ["Response A", "Response A"]
    ∧ parseRanking "1. Response A\n2. Response A" = ["Response A", "Response A"]
    ∧ calculateAggregateRankings
        [⟨"e1", "FINAL RANKING:\n1. Response A\n2. Response A",
          parseRanking "FINAL RANKING:\n1. Response A\n2. Response A"⟩]
        [("Response A", "m1")] =
        [⟨"m1", 3/2, 2⟩]
    ∧ ∃ e ∈ calculateAggregateRankings
        [⟨"e1", "FINAL RANKING:\n1. Response A\n2. Response A",
          parseRanking "FINAL RANKING:\n1. Response A\n2. Response A"⟩]
        [("Response A", "m1")],
        ([(⟨"e1", "FINAL RANKING:\n1. Response A\n2. Response A",
          parseRanking "FINAL RANKING:\n1. Response A\n2. Response A"⟩ : Stage2Ranking)]).length
          < e.rankings_count := by
  decide

/-! ## Aggregation lemmas (for C3) -/

theorem foldl_preserve {α β : Type} (P : β → Prop) (f : β → α → β)
    (hstep : ∀ b a, P b → P (f b a)) :
    ∀ (l : List α) (b : β), P b → P (l.foldl f b) := by
  intro l
  induction l with
  | nil => intro b hb; exact hb
  | cons a l ih => intro b hb; exact ih (f b a) (hstep b a hb)

theorem pushRank_ranks_ne_nil (m : String) (r : Nat) :
    ∀ acc : List (String × List Nat), (∀ p ∈ acc, p.2 ≠ []) →
      ∀ p ∈ pushRank acc m r, p.2 ≠ [] := by
  intro acc
  induction acc with
  | nil =>
    intro _ p hp
    rw [pushRank] at hp
    rcases List.mem_singleton.mp hp with rfl
    simp
  | cons q rest ih =>
    intro hacc p hp
    obtain ⟨m', rs⟩ := q
    rw [pushRank] at hp
    by_cases hm : m' = m
    · rw [if_pos hm] at hp
      rcases List.mem_cons.mp hp with rfl | hp'
      · simp
      · exact hacc p (List.mem_cons_of_mem _ hp')
    · rw [if_neg hm] at hp
      rcases List.mem_cons.mp hp with rfl | hp'
      · exact hacc _ (List.mem_cons_self _ _)
      · exact ih (fun q hq => hacc q (List.mem_cons_of_mem _ hq)) p hp'

theorem collectRanks_ranks_ne_nil (rankings : List Stage2Ranking)
    (ltm : List (String × String)) :
    ∀ p ∈ collectRanks rankings ltm, p.2 ≠ [] := by
  rw [collectRanks]
  refine foldl_preserve (fun acc : List (String × List Nat) => ∀ p ∈ acc, p.2 ≠ []) _ ?_
    rankings [] (by simp)
  intro acc ranking hacc
  refine foldl_preserve (fun acc2 : List (String × List Nat) => ∀ p ∈ acc2, p.2 ≠ []) _ ?_
    ranking.parsed_ranking.enum acc hacc
  intro acc2 q hacc2
  cases ltm.lookup q.2 with
  | none => exact hacc2
  | some model =>
    by_cases hm : model = ""
    · simpa [hm] using hacc2
    · simpa [hm] using pushRank_ranks_ne_nil model (q.1 + 1) acc2 hacc2

/-- The equal-key sublist is untouched by an ordered insertion: walked-past
elements have a strictly smaller key than the inserted one, so for the
inserted element's own key the element lands right before every other
equal-key element, and for any other key the filtered sublist is
unchanged. -/
theorem filter_orderedInsert (a : AggregateRanking) (v : ℚ) :
    ∀ l : List AggregateRanking,
      (List.orderedInsert leAvg a l).filter (fun e => decide (e.average_rank = v)) =
        if a.average_rank = v then
          a :: l.filter (fun e => decide (e.average_rank = v))
        else l.filter (fun e => decide (e.average_rank = v)) := by
  intro l
  induction l with
  | nil =>
    by_cases hav : a.average_rank = v <;> simp [List.orderedInsert, List.filter, hav]
  | cons b l ih =>
    by_cases hab : leAvg a b
    · rw [List.orderedInsert_of_le _ _ hab]
      by_cases hav : a.average_rank = v <;> simp [hav, List.filter]
    · rw [List.orderedInsert, if_neg hab]
      have hbv : a.average_rank = v → ¬ b.average_rank = v := by
        intro hav hbv
        exact hab (show a.average_rank ≤ b.average_rank by rw [hav, hbv])
      by_cases hav : a.average_rank = v
      · have hb : ¬ b.average_rank = v := hbv hav
        simp [List.filter, hb, ih, hav]
      · by_cases hbv' : b.average_rank = v <;> simp [List.filter, hbv', ih, hav]

theorem filter_insertionSort (v : ℚ) :
    ∀ l : List AggregateRanking,
      (List.insertionSort leAvg l).filter (fun e => decide (e.average_rank = v)) =
        l.filter (fun e => decide (e.average_rank = v)) := by
  intro l
  induction l with
  | nil => rfl
  | cons a l ih =>
    rw [List.insertionSort, filter_orderedInsert a v]
    by_cases hav : a.average_rank = v <;> simp [hav, List.filter, ih]

/-- The model/ranks pairs of the specification's Scenario C: three
evaluators over labels mapped `A→m1, B→m2, C→m3`, with parses
`[C,A,B]`, `[A,C,B]`, `[C,B,A]`. -/
def scenCRankings : List Stage2Ranking :=
  [⟨"e1", "", ["Response C", "Response A", "Response B"]⟩,
   ⟨"e2", "", ["Response A", "Response C", "Response B"]⟩,
   ⟨"e3", "", ["Response C", "Response B", "Response A"]⟩]

def scenCMap : List (String × String) :=
  [("Response A", "m1"), ("Response B", "m2"), ("Response C", "m3")]

/-- C3: `calculateAggregateRankings` assigns the label at 0-indexed
position `i` the rank `i + 1` and accumulates the resolved ranks per
model in first-encounter order (`collectRanks`); every output entry comes
from a model with at least one accumulated rank and carries
`average_rank = avgOf ranks` — the arithmetic mean rounded to two
decimals, half up — and `rankings_count = ranks.length`, and conversely
every accumulated model appears; the output is sorted ascending by
`average_rank` and is a permutation of the unsorted entry list whose
equal-average sublists are preserved — together with sortedness this
pins the output down as the unique stable ascending sort, so exact ties
stay in first-encountered order.  On Scenario C the output is `m3` with
`1.33`, `m1` with `2`, `m2` with `2.67`. -/
theorem aggregate_rankings_spec (rankings : List Stage2Ranking)
    (ltm : List (String × String)) :
    (calculateAggregateRankings rankings ltm).Sorted leAvg
    ∧ (calculateAggregateRankings rankings ltm).Perm (aggregateEntries rankings ltm)
    ∧ (∀ v : ℚ,
        (calculateAggregateRankings rankings ltm).filter
            (fun e => decide (e.average_rank = v)) =
          (aggregateEntries rankings ltm).filter (fun e => decide (e.average_rank = v)))
    ∧ (∀ e ∈ calculateAggregateRankings rankings ltm, ∃ ranks,
        (e.model, ranks) ∈ collectRanks rankings ltm ∧ ranks ≠ []
          ∧ e.average_rank = avgOf ranks ∧ e.rankings_count = ranks.length)
    ∧ (∀ p ∈ collectRanks rankings ltm,
        (⟨p.1, avgOf p.2, p.2.length⟩ : AggregateRanking) ∈
          calculateAggregateRankings rankings ltm)
    ∧ calculateAggregateRankings scenCRankings scenCMap =
        [⟨"m3", 133/100, 3⟩, ⟨"m1", 2, 3⟩, ⟨"m2", 267/100, 3⟩] := by
  refine ⟨List.sorted_insertionSort leAvg _, List.perm_insertionSort leAvg _,
    fun v => filter_insertionSort v _, ?_, ?_, by decide⟩
  · intro e he
    have he' : e ∈ aggregateEntries rankings ltm :=
      (List.perm_insertionSort leAvg _).mem_iff.mp he
    rw [aggregateEntries, List.mem_map] at he'
    obtain ⟨p, hp, hpe⟩ := he'
    refine ⟨p.2, ?_, collectRanks_ranks_ne_nil rankings ltm p hp, ?_, ?_⟩
    · rw [← hpe]; exact hp
    · rw [← hpe]
    · rw [← hpe]
  · intro p hp
    rw [calculateAggregateRankings, List.mem_insertionSort, aggregateEntries, List.mem_map]
    exact ⟨p, hp, rfl⟩

/-- Witness for C3, at Scenario C: `m3` accumulated the ranks `[1, 2, 1]`
and therefore appears in the aggregate with average `avgOf [1,2,1]`
(= 1.33) and count 3. -/
theorem aggregate_rankings_spec_witness :
    (⟨"m3", avgOf [1, 2, 1], 3⟩ : AggregateRanking) ∈
      calculateAggregateRankings scenCRankings scenCMap :=
  (aggregate_rankings_spec scenCRankings scenCMap).2.2.2.2.1 ("m3", [1, 2, 1]) (by decide)

end LLMCouncil
